import Mathlib

/-!
# Event-log analytics engine of `dashboard.py` — a shallow embedding

This file embeds the event-log analytics of the process-mining dashboard
(`src/dashboard.py`) in Lean and proves the specified properties about it.

Modelling conventions:
* Timestamps are absolute times in whole seconds (`ℤ`); a time difference in
  seconds (Python `timedelta.total_seconds()`) is then an integer and real
  arithmetic on durations/means is carried out in `ℚ`.
* Python's stable `sorted` is modelled by `List.insertionSort` (stable).
* `pandas.DataFrame.sort_values(col, ascending=False)` computes an ascending
  argsort and reverses the resulting indexer, so it is modelled as a stable
  ascending sort followed by `List.reverse`.
* Python dicts keyed by strings are modelled as insertion-ordered association
  lists (`List (String × _)`); only `lookup` behaviour is relied upon.
* `round(x, 2)` is Python's round-half-to-even, modelled exactly on `ℚ`.
* Functions of the repository's pipeline that live in the external `pm4py`
  library (trace building, case durations, attribute counts, variant
  grouping, variant filtering) are modelled from the spec's description of
  them, as noted on each definition.
-/

/-- One event of a trace: an activity label and its timestamp
(`concept:name` and `time:timestamp` in `dashboard.py`). -/
structure Event where
  activity : String
  timestamp : ℤ
deriving DecidableEq, Repr

/-- One raw input record (a row of the uploaded table after column mapping):
case identifier, activity label, timestamp. -/
structure RawRecord where
  caseId : String
  activity : String
  timestamp : ℤ
deriving DecidableEq, Repr

/-- Python's round-half-to-even (`round(q)`) on rationals. -/
def pyRound (q : ℚ) : ℤ :=
  if Int.fract q < 1/2 then ⌊q⌋
  else if 1/2 < Int.fract q then ⌊q⌋ + 1
  else if ⌊q⌋ % 2 = 0 then ⌊q⌋ else ⌊q⌋ + 1

/-- Python's `round(q, 2)`: round half-to-even at two decimal places. -/
def round2 (q : ℚ) : ℚ := (pyRound (q * 100) : ℚ) / 100

/-- Python's stable `sorted(trace, key=lambda x: x['time:timestamp'])`
(`dashboard.py` line 94). -/
def sortTs (t : List Event) : List Event :=
  t.insertionSort (fun x y => x.timestamp ≤ y.timestamp)

/-- Model of `pandas.DataFrame.sort_values(col, ascending=False)` on rows of
type `α` with sort column `key`: pandas argsorts ascending (stably, for the
small frames considered here) and reverses the indexer. -/
def pandasSortDesc {α β : Type} [LinearOrder β] (key : α → β) (l : List α) : List α :=
  (l.insertionSort (fun x y => key x ≤ key y)).reverse

/-- Minimum of a nonempty list of integers (Python `min`); `0` on `[]`
(never used on an empty list by the embedded code). -/
def listMinI : List ℤ → ℤ
  | [] => 0
  | x :: xs => xs.foldl min x

/-- Maximum of a nonempty list of integers (Python `max`); `0` on `[]`. -/
def listMaxI : List ℤ → ℤ
  | [] => 0
  | x :: xs => xs.foldl max x

/-- Minimum of a nonempty list of rationals (Python `min`); `0` on `[]`. -/
def listMinQ : List ℚ → ℚ
  | [] => 0
  | x :: xs => xs.foldl min x

/-- Maximum of a nonempty list of rationals (Python `max`); `0` on `[]`. -/
def listMaxQ : List ℚ → ℚ
  | [] => 0
  | x :: xs => xs.foldl max x

/-- Worker for `pySplit`: scans the text left to right, splitting at each
non-overlapping occurrence of the separator `s0 :: srest`, accumulating the
current fragment in reverse in `acc`.  The `Nat` argument is recursion fuel;
`pySplit` passes the text length, which always suffices because every step
consumes at least one character. -/
def splitSepGo (s0 : Char) (srest : List Char) : Nat → List Char → List Char → List (List Char)
  | _, [], acc => [acc.reverse]
  | 0, l, acc => [acc.reverse ++ l]
  | fuel + 1, c :: cs, acc =>
    if (s0 :: srest).isPrefixOf (c :: cs) then
      acc.reverse :: splitSepGo s0 srest fuel (List.drop (srest.length + 1) (c :: cs)) []
    else
      splitSepGo s0 srest fuel cs (c :: acc)

/-- Python's `s.split(sep)` for a non-empty separator: split `s` at each
non-overlapping occurrence of `sep`, scanning left to right
(`selected_variant.split(' → ')`, `dashboard.py` line 186). -/
def pySplit (sep : String) (s : String) : List String :=
  match sep.data with
  | [] => [s]
  | s0 :: srest => (splitSepGo s0 srest s.data.length s.data []).map fun cs => ⟨cs⟩

/-- Python's `sep.join(parts)` (`' → '.join(variant)`, `dashboard.py`
line 167). -/
def pyJoin (sep : String) (parts : List String) : String :=
  ⟨List.intercalate sep.data (parts.map String.data)⟩

/-! ## Trace Builder (`dashboard.py` lines 44–53) -/

/-- The event a raw record becomes once grouped into its case's trace. -/
def toEvent (r : RawRecord) : Event := ⟨r.activity, r.timestamp⟩

/-- The distinct case identifiers, in order of first appearance. -/
def caseIds (rs : List RawRecord) : List String := (rs.map (·.caseId)).dedup

/-- All records of one case, in input order. -/
def caseGroup (rs : List RawRecord) (c : String) : List RawRecord :=
  rs.filter fun r => r.caseId == c

/-- Modelled from the spec: the Trace Builder pipeline
`pm4py.format_dataframe` / `pm4py.filter_case_size(df, 2, None)` /
`log_converter.apply(..., TO_EVENT_LOG)` (`dashboard.py` lines 44–53), whose
code lives in the external `pm4py` library. Per the spec (§4.1): group the
records by case id, sort each group ascending by timestamp (stable), and drop
every group with fewer than 2 events. -/
def build_event_log (rs : List RawRecord) : List (List Event) :=
  (caseIds rs).filterMap fun c =>
    let g := caseGroup rs c
    if 2 ≤ g.length then some (sortTs (g.map toEvent)) else none

/-! ## Case Duration Analyzer (`dashboard.py` lines 70–76) -/

/-- Embeds `events[-1] − events[0]` timestamp span of a trace, in seconds
(`0` for an empty trace, which the callers never produce). -/
def spanSeconds (t : List Event) : ℤ :=
  (t.getLast?.getD ⟨"", 0⟩).timestamp - (t.head?.getD ⟨"", 0⟩).timestamp

/-- Modelled from the spec: `case_statistics.get_all_case_durations`
(`dashboard.py` line 70), from the external `pm4py` library — per the spec
(§4.2), one duration per case, `last event timestamp − first event timestamp`
in seconds, over the time-ordered trace. -/
def get_all_case_durations (log : List (List Event)) : List ℚ :=
  log.map fun t => ((spanSeconds t : ℤ) : ℚ)

/-- Embeds `avg_duration = sum(case_durations) / len(case_durations) if case_durations else 0`
(`dashboard.py` line 71). -/
def avg_duration (log : List (List Event)) : ℚ :=
  if get_all_case_durations log = [] then 0
  else (get_all_case_durations log).sum / ((get_all_case_durations log).length : ℚ)

/-- A displayed summary metric: either a numeric value (in hours, rounded to
2 decimals) or the "N/A" no-data sentinel. -/
inductive Metric where
  | noData
  | value (q : ℚ)
deriving DecidableEq, Repr

/-- Embeds `col1.metric("Avg Case Duration", f"{round(avg_duration/3600, 2)} hours")`
(`dashboard.py` line 74): the average is always rendered as a number. -/
def avg_case_metric (log : List (List Event)) : Metric :=
  .value (round2 (avg_duration log / 3600))

/-- Embeds `round(min(case_durations)/3600, 2)` if the log is nonempty, else `"N/A"`
(`dashboard.py` line 75). -/
def min_case_metric (log : List (List Event)) : Metric :=
  if get_all_case_durations log = [] then .noData
  else .value (round2 (listMinQ (get_all_case_durations log) / 3600))

/-- Embeds `round(max(case_durations)/3600, 2)` if the log is nonempty, else `"N/A"`
(`dashboard.py` line 76). -/
def max_case_metric (log : List (List Event)) : Metric :=
  if get_all_case_durations log = [] then .noData
  else .value (round2 (listMaxQ (get_all_case_durations log) / 3600))

/-! ## Activity Frequency and Timing (`dashboard.py` lines 84–123) -/

/-- The activity labels of all events of the log, trace by trace in stored
order. -/
def allLabels (log : List (List Event)) : List String :=
  (log.map fun t => t.map (·.activity)).flatten

/-- Modelled from the spec:
`pm4py.get_event_attribute_values(event_log, "concept:name")`
(`dashboard.py` line 84), from the external `pm4py` library — the frequency
count of each distinct activity label over all events of the log, keys in
order of first appearance. -/
def activity_counts (log : List (List Event)) : List (String × ℕ) :=
  (allLabels log).dedup.map fun a => (a, (allLabels log).count a)

/-- The `activity_timing` dictionary: each activity maps to its list of
duration samples (seconds elapsed from the previous event of the same trace). -/
abbrev TimingDict := List (String × List ℤ)

/-- Embeds `if activity not in activity_timing: activity_timing[activity] = {'durations': []}`
(`dashboard.py` lines 98–99): insert an empty entry if the key is absent
(Python dicts append new keys at the end). -/
def dictEnsure (d : TimingDict) (a : String) : TimingDict :=
  if (d.lookup a).isSome then d else d ++ [(a, [])]

/-- Embeds `activity_timing[activity]['durations'].append(duration)`
(`dashboard.py` line 104). -/
def dictAppend (d : TimingDict) (a : String) (v : ℤ) : TimingDict :=
  d.map fun p => (p.1, if p.1 = a then p.2 ++ [v] else p.2)

/-- The inner loop of `dashboard.py` lines 96–106: walk the (already
time-sorted) events with a `previous_event` register; every event gets a
dictionary entry, and every event with a predecessor appends
`timestamp − previous.timestamp` (seconds) to its own activity's samples. -/
def processEvents : Option Event → TimingDict → List Event → TimingDict
  | _, d, [] => d
  | prev, d, e :: es =>
    let d1 := dictEnsure d e.activity
    let d2 := match prev with
      | none => d1
      | some p => dictAppend d1 e.activity (e.timestamp - p.timestamp)
    processEvents (some e) d2 es

/-- The full timing loop of `dashboard.py` lines 87–106: fold over the
traces, sorting each trace by timestamp before walking it. -/
def activity_timing (log : List (List Event)) : TimingDict :=
  log.foldl (fun d t => processEvents none d (sortTs t)) []

/-- Embeds `activity_timing[activity]['durations']` (`dashboard.py` line 111). -/
def durationsOf (log : List (List Event)) (a : String) : List ℤ :=
  ((activity_timing log).lookup a).getD []

/-- Second definition of the duration samples, following the spec's words
(§4.3): "for each trace, walk events in stored (already time-sorted) order;
for every event except the first in its trace, append
`(timestamp − previous_event.timestamp)` in seconds to that event's
activity's duration sample set".  `gapsAux` pairs every non-first event of a
sorted trace with its gap to the immediately preceding event. -/
def gapsAux : Option Event → List Event → List (String × ℤ)
  | _, [] => []
  | none, e :: es => gapsAux (some e) es
  | some p, e :: es => (e.activity, e.timestamp - p.timestamp) :: gapsAux (some e) es

/-- The (activity, gap) pairs of one trace, in time-sorted order. -/
def traceGaps (t : List Event) : List (String × ℤ) := gapsAux none (sortTs t)

/-- Spec-side duration sample set of activity `a`: the gaps of all non-first
events bearing label `a`, across all traces. -/
def specDurations (log : List (List Event)) (a : String) : List ℤ :=
  ((log.map traceGaps).flatten).filterMap fun g => if g.1 = a then some g.2 else none

/-- Embeds `sum(activity_counts.values())` (`dashboard.py` line 116). -/
def counts_total (log : List (List Event)) : ℕ :=
  ((activity_counts log).map (·.2)).sum

/-- One row of the activity analysis table (`dashboard.py` lines 113–121). -/
structure ActivityRow where
  activity : String
  count : ℕ
  percentage : ℚ
  minHours : ℚ
  avgHours : ℚ
  maxHours : ℚ
  sampleSize : ℕ
deriving DecidableEq, Repr

/-- Embeds `activity_data` (`dashboard.py` lines 109–121): one row per key of
`activity_counts`, with count, percentage of all events (rounded to 2
decimals), and min/avg/max of the duration samples in hours (0 if there are
no samples). -/
def activity_data (log : List (List Event)) : List ActivityRow :=
  (activity_counts log).map fun ac =>
    let durations := durationsOf log ac.1
    { activity := ac.1
      count := ac.2
      percentage := round2 ((ac.2 : ℚ) / (counts_total log : ℚ) * 100)
      minHours := if durations = [] then 0 else round2 ((listMinI durations : ℤ) / 3600)
      avgHours := if durations = [] then 0
                  else round2 ((durations.sum : ℚ) / (durations.length : ℚ) / 3600)
      maxHours := if durations = [] then 0 else round2 ((listMaxI durations : ℤ) / 3600)
      sampleSize := durations.length }

/-- Embeds `activity_df = pd.DataFrame(activity_data).sort_values('Count', ascending=False)`
(`dashboard.py` line 123). -/
def activity_df (log : List (List Event)) : List ActivityRow :=
  pandasSortDesc (fun r => r.count) (activity_data log)

/-! ## Process Variants (`dashboard.py` lines 151–186) -/

/-- The variant key of a trace: its ordered activity-label sequence. -/
def variantKey (t : List Event) : List String := t.map (·.activity)

/-- Modelled from the spec: `pm4py.get_variants_as_tuples(event_log)`
(`dashboard.py` line 151), from the external `pm4py` library — per the spec
(§4.4), the traces grouped by variant key: each distinct ordered
activity-label sequence (in order of first appearance) with the list of
traces realising it. -/
def variants_as_tuples (log : List (List Event)) : List (List String × List (List Event)) :=
  (log.map variantKey).dedup.map fun v => (v, log.filter fun t => variantKey t == v)

/-- Every event of this model carries a timestamp (the upstream
`pm4py.format_dataframe` conversion guarantees `time:timestamp` on every
event), so the `'time:timestamp' in x` test of `dashboard.py` line 158 always
passes. -/
def hasTimestamp (_ : Event) : Bool := true

/-- Embeds `variant_durations` for one variant's traces (`dashboard.py` lines
155–163): for each trace whose timestamp-carrying events number more than 1,
the span `events[-1] − events[0]` in seconds. -/
def variant_durations (traces : List (List Event)) : List ℚ :=
  traces.filterMap fun trace =>
    let events := trace.filter hasTimestamp
    if 1 < events.length then some ((spanSeconds events : ℤ) : ℚ) else none

/-- One row of the variants table (`dashboard.py` lines 166–170), keeping the
intermediate `avg_duration` (seconds) alongside the displayed rounded hours. -/
structure VariantRecord where
  variantStr : String
  count : ℕ
  avgSeconds : ℚ
  avgHours : ℚ
deriving DecidableEq, Repr

/-- The row built for one `(variant, traces)` pair (`dashboard.py` lines
154–170): `avg_duration = sum(variant_durations)/len(variant_durations) if
variant_durations else 0`, rendered variant string joined with `' → '`. -/
def mkVariantRecord (vt : List String × List (List Event)) : VariantRecord :=
  let ds := variant_durations vt.2
  let avg : ℚ := if ds = [] then 0 else ds.sum / (ds.length : ℚ)
  { variantStr := pyJoin " → " vt.1
    count := vt.2.length
    avgSeconds := avg
    avgHours := round2 (avg / 3600) }

/-- Embeds `variant_stats` (`dashboard.py` lines 153–170). -/
def variant_stats (log : List (List Event)) : List VariantRecord :=
  (variants_as_tuples log).map mkVariantRecord

/-- Second definition of per-variant average duration, following the spec's
words (§4.4): "for each contributing trace with ≥2 events carrying
timestamps, compute (last event timestamp − first event timestamp) in
seconds; `avg_duration` is the arithmetic mean of these per-trace values, or
0 if no contributing trace qualifies". -/
def spec_variant_avg (traces : List (List Event)) : ℚ :=
  let q := traces.filter fun t => 2 ≤ t.length
  if q = [] then 0 else (q.map fun t => ((spanSeconds t : ℤ) : ℚ)).sum / (q.length : ℚ)

/-- Modelled from the spec: `pm4py.filter_variants(event_log, keys)`
(`dashboard.py` line 186), from the external `pm4py` library — per the spec
(§4.4), keep exactly the traces whose variant key is among `keys`. -/
def filter_variants (log : List (List Event)) (keys : List (List String)) : List (List Event) :=
  log.filter fun t => keys.contains (variantKey t)

/-- Embeds `filtered_log = pm4py.filter_variants(event_log, [tuple(selected_variant.split(' → '))])`
(`dashboard.py` line 186): the selected variant string is parsed back into a
key by splitting on `' → '`. -/
def filtered_log (log : List (List Event)) (selected : String) : List (List Event) :=
  filter_variants log [pySplit " → " selected]

/-- The end-to-end variant filter for a variant key `v` as the dashboard
exposes it: `v` is rendered as `' → '.join(v)` into the variants table
(`dashboard.py` line 167), the user selects that string, and the log is
filtered by the re-parsed key (`dashboard.py` lines 183–186). -/
def select_variant_filtered (log : List (List Event)) (v : List String) : List (List Event) :=
  filtered_log log (pyJoin " → " v)

/-! ## Bottleneck Analysis (`dashboard.py` lines 199–231) -/

/-- A value found in the externally supplied transition-time mapping: a
number, or something non-numeric. -/
inductive PVal where
  | num (q : ℚ)
  | other
deriving DecidableEq, Repr

/-- The shape of one entry of the performance DFG returned by the external
collaborator: either a statistics dictionary (possibly lacking the `'mean'`
key) or a bare (legacy) value. -/
inductive TimeInfo where
  | stats (mean : Option PVal)
  | legacy (v : PVal)
deriving DecidableEq, Repr

/-- Embeds `avg_time = time_info.get('mean', 0) if isinstance(time_info, dict) else time_info`
(`dashboard.py` lines 206–209). -/
def extractMean : TimeInfo → PVal
  | .stats m => m.getD (.num 0)
  | .legacy v => v

/-- Embeds `isinstance(avg_time, (int, float)) and avg_time > 0`
(`dashboard.py` line 212). -/
def isPosNum : PVal → Bool
  | .num q => decide (0 < q)
  | .other => false

/-- One row of the bottleneck table (`dashboard.py` lines 213–217), keeping
the intermediate `avg_time` (seconds) alongside the displayed rounded hours. -/
structure PerfRecord where
  fromAct : String
  toAct : String
  avgSeconds : ℚ
  avgHours : ℚ
deriving DecidableEq, Repr

/-- Embeds `performance_data` (`dashboard.py` lines 203–217): keep exactly the
entries whose extracted mean is a number strictly greater than 0. -/
def performance_data (m : List ((String × String) × TimeInfo)) : List PerfRecord :=
  m.filterMap fun kt =>
    match extractMean kt.2 with
    | .num q => if 0 < q then some ⟨kt.1.1, kt.1.2, q, round2 (q / 3600)⟩ else none
    | .other => none

/-- Embeds `perf_df = perf_df.sort_values('Avg Time (hours)', ascending=False)`
(`dashboard.py` lines 220–221). -/
def perf_df (m : List ((String × String) × TimeInfo)) : List PerfRecord :=
  pandasSortDesc (fun r => r.avgHours) (performance_data m)

/-- Embeds `perf_df.head(5)` (`dashboard.py` line 230): the headline bottleneck
transitions. -/
def bottleneck_headline (m : List ((String × String) × TimeInfo)) : List PerfRecord :=
  (perf_df m).take 5

/-! ## Concrete inputs used by the scenario parts of the claims -/

/-- Scenario 1 (spec §8): two traces, case A = `[(x,t0),(y,t0+60s)]`,
case B = `[(x,t0),(y,t0+120s)]`. -/
def scenario1Log : List (List Event) :=
  [[⟨"x", 0⟩, ⟨"y", 60⟩], [⟨"x", 0⟩, ⟨"y", 120⟩]]

/-- Scenario 2 (spec §8): a single trace `[(x,t0),(x,t0+10s),(y,t0+20s)]`. -/
def scenario2Log : List (List Event) :=
  [[⟨"x", 0⟩, ⟨"x", 10⟩, ⟨"y", 20⟩]]

/-- Scenario 4 (spec §8): the transition-time mapping
`{(a,b): -5, (c,d): 0, (e,f): 300}`. -/
def scenario4Map : List ((String × String) × TimeInfo) :=
  [(("a", "b"), .legacy (.num (-5))), (("c", "d"), .legacy (.num 0)),
   (("e", "f"), .legacy (.num 300))]

/-- Raw records of one two-event case, for the Trace Builder witness. -/
def witnessRecords : List RawRecord :=
  [⟨"A", "x", 0⟩, ⟨"A", "y", 60⟩]

/-- A transition-time mapping with two entries of equal rounded mean hours
(3601 s and 3599 s both round to 1.00 h), the larger mean first and the
lexicographically smaller key first. -/
def tieMap : List ((String × String) × TimeInfo) :=
  [(("a", "a"), .legacy (.num 3601)), (("b", "b"), .legacy (.num 3599))]

/-- A log of one trace whose two activities occur once each, activity `"a"`
appearing first. -/
def tieLog : List (List Event) := [[⟨"a", 0⟩, ⟨"b", 60⟩]]

/-- A log whose single variant has an activity label containing the
separator `' → '` used to render variant keys. -/
def sepLog : List (List Event) := [[⟨"a → b", 0⟩, ⟨"c", 60⟩]]

/-! ## Lemmas about the sorting model -/

theorem pairwise_of_forall_rel {α : Type} {r : α → α → Prop} {p : α → Bool}
    (h : ∀ a b, p a = true → p b = true → r a b) :
    ∀ m : List α, (∀ x ∈ m, p x = true) → m.Pairwise r := by
  intro m
  induction m with
  | nil => intro _; exact List.Pairwise.nil
  | cons a t ih =>
    intro hm
    refine List.Pairwise.cons (fun b hb => h a b ?_ ?_)
      (ih fun x hx => hm x (List.mem_cons_of_mem _ hx))
    · exact hm a (List.mem_cons_self _ _)
    · exact hm b (List.mem_cons_of_mem _ hb)

/-- Stability of the ascending sort: a class of pairwise-tied elements keeps
its relative order. -/
theorem filter_insertionSort_ties {α : Type} (r : α → α → Prop) [DecidableRel r]
    (p : α → Bool) (l : List α) (h : ∀ a b, p a = true → p b = true → r a b) :
    (l.insertionSort r).filter p = l.filter p := by
  have hmem : ∀ x ∈ l.filter p, p x = true := fun x hx => List.of_mem_filter hx
  have hpw : (l.filter p).Pairwise r := pairwise_of_forall_rel h _ hmem
  have hsub : List.Sublist (l.filter p) (l.insertionSort r) :=
    List.sublist_insertionSort hpw (List.filter_sublist l)
  have h2 : List.Sublist (l.filter p) ((l.insertionSort r).filter p) := by
    have h3 := hsub.filter p
    rwa [List.filter_eq_self.mpr hmem] at h3
  have hperm : List.Perm ((l.insertionSort r).filter p) (l.filter p) :=
    (List.perm_insertionSort r l).filter p
  exact (h2.eq_of_length hperm.length_eq.symm).symm

/-- The descending pandas sort is sorted non-increasing in the key. -/
theorem pandasSortDesc_sorted {α β : Type} [LinearOrder β] (key : α → β) (l : List α) :
    (pandasSortDesc key l).Sorted fun x y => key y ≤ key x := by
  haveI : IsTotal α fun x y => key x ≤ key y := ⟨fun a b => le_total _ _⟩
  haveI : IsTrans α fun x y => key x ≤ key y := ⟨fun a b c hab hbc => le_trans hab hbc⟩
  refine List.pairwise_reverse.mpr ?_
  exact List.sorted_insertionSort _ l

/-- In the descending pandas sort, elements with equal key appear in the
reverse of their input order. -/
theorem pandasSortDesc_filter_ties {α β : Type} [LinearOrder β] [DecidableEq β]
    (key : α → β) (l : List α) (c : β) :
    (pandasSortDesc key l).filter (fun x => decide (key x = c))
      = (l.filter fun x => decide (key x = c)).reverse := by
  unfold pandasSortDesc
  rw [List.filter_reverse]
  congr 1
  refine filter_insertionSort_ties _ _ _ fun a b ha hb => ?_
  have ha' := of_decide_eq_true ha
  have hb' := of_decide_eq_true hb
  rw [ha', hb']

theorem pandasSortDesc_perm {α β : Type} [LinearOrder β] (key : α → β) (l : List α) :
    List.Perm (pandasSortDesc key l) l :=
  (List.reverse_perm _).trans (List.perm_insertionSort _ l)

/-! ## Lemmas about the rounding model -/

theorem pyRound_err (q : ℚ) : |((pyRound q : ℤ) : ℚ) - q| ≤ 1/2 := by
  have h0 : 0 ≤ Int.fract q := Int.fract_nonneg q
  have h1 : Int.fract q < 1 := Int.fract_lt_one q
  have hf : ((⌊q⌋ : ℤ) : ℚ) = q - Int.fract q := (Int.self_sub_fract q).symm
  have hfloor : ((⌊q⌋ : ℤ) : ℚ) - q = -(Int.fract q) := by rw [hf]; ring
  have hceil : (((⌊q⌋ + 1 : ℤ)) : ℚ) - q = 1 - Int.fract q := by push_cast; rw [hf]; ring
  unfold pyRound
  split_ifs with hlt hgt _hev
  · rw [hfloor, abs_neg, abs_of_nonneg h0]; linarith
  · rw [hceil, abs_of_nonneg (by linarith)]; linarith
  · rw [hfloor, abs_neg, abs_of_nonneg h0]; linarith
  · rw [hceil, abs_of_nonneg (by linarith)]; linarith

theorem round2_err (q : ℚ) : |round2 q - q| ≤ 1/200 := by
  unfold round2
  have h := pyRound_err (q * 100)
  have heq : (pyRound (q * 100) : ℚ) / 100 - q = ((pyRound (q * 100) : ℚ) - q * 100) / 100 := by
    ring
  rw [heq, abs_div, abs_of_pos (by norm_num : (0:ℚ) < 100)]
  rw [div_le_div_iff₀ (by norm_num) (by norm_num : (0:ℚ) < 200)]
  nlinarith [h]

/-! ## Lemmas about the `activity_timing` dictionary -/

theorem lookup_append_unit (d : TimingDict) (b a : String) :
    ((d ++ [(b, ([] : List ℤ))]).lookup a).getD [] = (d.lookup a).getD [] := by
  induction d with
  | nil => by_cases h : a == b <;> simp [List.lookup, h]
  | cons p d ih =>
    by_cases h : a == p.1 <;> simp [List.lookup, h, ih]

theorem lookup_append_isSome (d : TimingDict) (b a : String) :
    ((d ++ [(b, ([] : List ℤ))]).lookup a).isSome ↔ (d.lookup a).isSome ∨ a = b := by
  induction d with
  | nil =>
    by_cases h : a == b
    · have ha : a = b := by simpa using h
      simp [List.lookup, h, ha]
    · have ha : ¬ a = b := by simpa using h
      simp [List.lookup, h, ha]
  | cons p d ih =>
    by_cases h : a == p.1 <;> simp [List.lookup, h, ih]

theorem dictEnsure_lookup_getD (d : TimingDict) (b a : String) :
    ((dictEnsure d b).lookup a).getD [] = (d.lookup a).getD [] := by
  unfold dictEnsure
  split
  · rfl
  · exact lookup_append_unit d b a

theorem dictEnsure_lookup_isSome (d : TimingDict) (b a : String) :
    ((dictEnsure d b).lookup a).isSome ↔ (d.lookup a).isSome ∨ a = b := by
  unfold dictEnsure
  split
  · rename_i h
    constructor
    · exact fun h' => Or.inl h'
    · rintro (h' | rfl)
      · exact h'
      · exact h
  · exact lookup_append_isSome d b a

theorem dictEnsure_self_isSome (d : TimingDict) (b : String) :
    ((dictEnsure d b).lookup b).isSome := by
  rw [dictEnsure_lookup_isSome]
  exact Or.inr rfl

theorem dictAppend_lookup (d : TimingDict) (b : String) (v : ℤ) (a : String) :
    (dictAppend d b v).lookup a
      = (d.lookup a).map fun xs => if a = b then xs ++ [v] else xs := by
  induction d with
  | nil => simp [dictAppend, List.lookup]
  | cons p d ih =>
    by_cases h : a == p.1
    · have ha : a = p.1 := by simpa using h
      simp [dictAppend, List.lookup, h, ha]
    · simp only [dictAppend] at ih ⊢
      simp [List.lookup, h, ih]

theorem dictAppend_lookup_isSome (d : TimingDict) (b : String) (v : ℤ) (a : String) :
    ((dictAppend d b v).lookup a).isSome ↔ (d.lookup a).isSome := by
  rw [dictAppend_lookup]
  simp

theorem step_lookup_getD (d : TimingDict) (b : String) (v : ℤ) (a : String) :
    ((dictAppend (dictEnsure d b) b v).lookup a).getD []
      = (d.lookup a).getD [] ++ (if b = a then [v] else []) := by
  rw [dictAppend_lookup]
  by_cases hab : a = b
  · subst hab
    obtain ⟨xs, hxs⟩ := Option.isSome_iff_exists.mp (dictEnsure_self_isSome d a)
    have hx2 : xs = (d.lookup a).getD [] := by
      have h1 := dictEnsure_lookup_getD d a a
      rw [hxs] at h1
      simpa using h1
    rw [hxs]
    simp [hx2]
  · have hba : ¬ b = a := fun h => hab h.symm
    have h1 := dictEnsure_lookup_getD d b a
    cases h : (dictEnsure d b).lookup a with
    | none =>
      rw [h] at h1
      simp only [if_neg hab, if_neg hba, List.append_nil]
      simpa using h1
    | some xs =>
      rw [h] at h1
      simp only [if_neg hab, if_neg hba, List.append_nil]
      simpa using h1

theorem processEvents_lookup_getD :
    ∀ (es : List Event) (prev : Option Event) (d : TimingDict) (a : String),
    ((processEvents prev d es).lookup a).getD []
      = (d.lookup a).getD []
        ++ (gapsAux prev es).filterMap fun g => if g.1 = a then some g.2 else none := by
  intro es
  induction es with
  | nil =>
    intro prev d a
    cases prev <;> simp [processEvents, gapsAux]
  | cons e es ih =>
    intro prev d a
    cases prev with
    | none =>
      rw [show processEvents none d (e :: es)
            = processEvents (some e) (dictEnsure d e.activity) es from rfl]
      rw [ih, dictEnsure_lookup_getD]
      simp [gapsAux]
    | some p =>
      rw [show processEvents (some p) d (e :: es)
            = processEvents (some e)
                (dictAppend (dictEnsure d e.activity) e.activity
                  (e.timestamp - p.timestamp)) es from rfl]
      rw [ih, step_lookup_getD]
      by_cases h : e.activity = a
      · simp [gapsAux, h, List.filterMap_cons, List.append_assoc]
      · simp [gapsAux, h, List.filterMap_cons]

theorem foldl_timing_lookup_getD :
    ∀ (log : List (List Event)) (d : TimingDict) (a : String),
    ((log.foldl (fun d t => processEvents none d (sortTs t)) d).lookup a).getD []
      = (d.lookup a).getD []
        ++ ((log.map traceGaps).flatten).filterMap fun g => if g.1 = a then some g.2 else none := by
  intro log
  induction log with
  | nil => intro d a; simp
  | cons t log ih =>
    intro d a
    simp only [List.foldl_cons]
    rw [ih, processEvents_lookup_getD]
    simp [traceGaps, List.filterMap_append, List.append_assoc]

theorem processEvents_lookup_isSome :
    ∀ (es : List Event) (prev : Option Event) (d : TimingDict) (a : String),
    ((processEvents prev d es).lookup a).isSome
      ↔ (d.lookup a).isSome ∨ a ∈ es.map (·.activity) := by
  intro es
  induction es with
  | nil => intro prev d a; cases prev <;> simp [processEvents]
  | cons e es ih =>
    intro prev d a
    cases prev with
    | none =>
      rw [show processEvents none d (e :: es)
            = processEvents (some e) (dictEnsure d e.activity) es from rfl]
      rw [ih, dictEnsure_lookup_isSome]
      simp [or_assoc]
    | some p =>
      rw [show processEvents (some p) d (e :: es)
            = processEvents (some e)
                (dictAppend (dictEnsure d e.activity) e.activity
                  (e.timestamp - p.timestamp)) es from rfl]
      rw [ih, dictAppend_lookup_isSome, dictEnsure_lookup_isSome]
      simp [or_assoc]

theorem foldl_timing_lookup_isSome :
    ∀ (log : List (List Event)) (d : TimingDict) (a : String),
    ((log.foldl (fun d t => processEvents none d (sortTs t)) d).lookup a).isSome
      ↔ (d.lookup a).isSome ∨ a ∈ allLabels log := by
  intro log
  induction log with
  | nil => intro d a; simp [allLabels]
  | cons t log ih =>
    intro d a
    simp only [List.foldl_cons]
    rw [ih, processEvents_lookup_isSome]
    have hmem : a ∈ (sortTs t).map (·.activity) ↔ a ∈ t.map (·.activity) :=
      ((List.perm_insertionSort _ t).map (·.activity)).mem_iff
  -- membership in the sorted trace's labels matches the stored trace's labels
    simp [allLabels, hmem, or_assoc]

/-- The duration sample sets computed by the imperative dictionary loop agree
with the spec-side per-trace gap description. -/
theorem durationsOf_eq_specDurations (log : List (List Event)) (a : String) :
    durationsOf log a = specDurations log a := by
  unfold durationsOf activity_timing specDurations
  rw [foldl_timing_lookup_getD]
  simp [List.lookup]

/-! ## Counting lemmas -/

theorem sum_indicator_zero (ks : List String) (x : String) (hx : x ∉ ks) :
    (ks.map fun a => if x = a then (1 : ℕ) else 0).sum = 0 := by
  induction ks with
  | nil => simp
  | cons k t ih =>
    have hxk : ¬ x = k := fun e => hx (e ▸ List.mem_cons_self _ _)
    simp [hxk, ih fun h => hx (List.mem_cons_of_mem _ h)]

theorem sum_indicator_one (ks : List String) (x : String) (hnd : ks.Nodup)
    (hx : x ∈ ks) :
    (ks.map fun a => if x = a then (1 : ℕ) else 0).sum = 1 := by
  induction ks with
  | nil => cases hx
  | cons k t ih =>
    rcases List.mem_cons.mp hx with h | h
    · subst h
      have hxt : x ∉ t := (List.nodup_cons.mp hnd).1
      simp [sum_indicator_zero t x hxt]
    · have hxk : ¬ x = k := fun e => (List.nodup_cons.mp hnd).1 (e ▸ h)
      simp [hxk, ih (List.nodup_cons.mp hnd).2 h]

theorem sum_map_add_nat (l : List String) (f g : String → ℕ) :
    (l.map fun a => f a + g a).sum = (l.map f).sum + (l.map g).sum := by
  induction l with
  | nil => simp
  | cons a t ih => simp [ih]; omega

/-- Summing each label's multiplicity over a duplicate-free covering key list
recovers the total number of labels. -/
theorem sum_counts_eq_length (ks : List String) :
    ∀ l : List String, ks.Nodup → (∀ x ∈ l, x ∈ ks) →
      (ks.map fun a => l.count a).sum = l.length := by
  intro l
  induction l with
  | nil => intro _ _; simp
  | cons x t ih =>
    intro hnd hsub
    have h1 : (ks.map fun a => (x :: t).count a)
        = ks.map fun a => t.count a + if x = a then 1 else 0 := by
      simp [List.count_cons]
    rw [h1, sum_map_add_nat,
      ih hnd fun y hy => hsub y (List.mem_cons_of_mem _ hy),
      sum_indicator_one ks x hnd (hsub x (List.mem_cons_self _ _))]
    simp

theorem counts_total_eq_length (log : List (List Event)) :
    counts_total log = (allLabels log).length := by
  unfold counts_total activity_counts
  rw [List.map_map]
  exact sum_counts_eq_length _ _ (List.nodup_dedup _) fun x hx => List.mem_dedup.mpr hx

/-! ## Difference-of-sums bound -/

theorem abs_list_sum_sub_le {α : Type} (l : List α) (f g : α → ℚ) (c : ℚ)
    (h : ∀ a ∈ l, |f a - g a| ≤ c) :
    |(l.map f).sum - (l.map g).sum| ≤ (l.length : ℚ) * c := by
  induction l with
  | nil => simp
  | cons a t ih =>
    simp only [List.map_cons, List.sum_cons, List.length_cons]
    push_cast
    have h1 : |f a - g a| ≤ c := h a (List.mem_cons_self _ _)
    have h2 := ih fun x hx => h x (List.mem_cons_of_mem _ hx)
    calc |f a + (t.map f).sum - (g a + (t.map g).sum)|
        = |(f a - g a) + ((t.map f).sum - (t.map g).sum)| := by ring_nf
      _ ≤ |f a - g a| + |(t.map f).sum - (t.map g).sum| := abs_add _ _
      _ ≤ c + (t.length : ℚ) * c := add_le_add h1 h2
      _ = ((t.length : ℚ) + 1) * c := by ring

/-! ## Claim C1 -/

/-- Claim C1: For every input record collection, every trace of the Trace
Builder's output EventLog is sorted non-decreasing by timestamp and contains
at least 2 events; moreover a case grouping with fewer than 2 records yields
no trace of the output EventLog (and hence reaches no analyzer, as all of
them consume only this EventLog). -/
theorem trace_builder_invariants :
    (∀ (rs : List RawRecord) (t : List Event), t ∈ build_event_log rs →
        t.Sorted (fun x y => x.timestamp ≤ y.timestamp) ∧ 2 ≤ t.length)
    ∧ ∀ (rs : List RawRecord) (c : String), (caseGroup rs c).length < 2 →
        ∀ t ∈ build_event_log rs, t ≠ sortTs ((caseGroup rs c).map toEvent) := by
  haveI : IsTotal Event fun x y => x.timestamp ≤ y.timestamp := ⟨fun a b => le_total _ _⟩
  haveI : IsTrans Event fun x y => x.timestamp ≤ y.timestamp :=
    ⟨fun a b c hab hbc => le_trans hab hbc⟩
  have main : ∀ (rs : List RawRecord) (t : List Event), t ∈ build_event_log rs →
      t.Sorted (fun x y => x.timestamp ≤ y.timestamp) ∧ 2 ≤ t.length := by
    intro rs t ht
    unfold build_event_log at ht
    obtain ⟨c, _hc, hsome⟩ := List.mem_filterMap.mp ht
    have hsome' : (if 2 ≤ (caseGroup rs c).length
        then some (sortTs ((caseGroup rs c).map toEvent)) else none) = some t := hsome
    by_cases h2 : 2 ≤ (caseGroup rs c).length
    · rw [if_pos h2] at hsome'
      have heq : t = sortTs ((caseGroup rs c).map toEvent) := (Option.some.inj hsome').symm
      subst heq
      refine ⟨List.sorted_insertionSort _ _, ?_⟩
      rw [sortTs, List.length_insertionSort, List.length_map]
      exact h2
    · rw [if_neg h2] at hsome'
      cases hsome'
  refine ⟨main, fun rs c hlt t ht heq => ?_⟩
  have h2 := (main rs t ht).2
  rw [heq, sortTs, List.length_insertionSort, List.length_map] at h2
  omega

/-- Witness for C1 at the two-record input `witnessRecords`. -/
theorem trace_builder_invariants_witness :
    ([⟨"x", 0⟩, ⟨"y", 60⟩] : List Event).Sorted (fun x y => x.timestamp ≤ y.timestamp)
      ∧ 2 ≤ ([⟨"x", 0⟩, ⟨"y", 60⟩] : List Event).length :=
  trace_builder_invariants.1 witnessRecords _ (by decide)

/-! ## Claim C2 -/

/-- Claim C2: The Activity Timing Analyzer's duration sample sets are exactly
the spec's per-trace gap description: for every trace and every event except
the first of its trace (in time-sorted order), the elapsed seconds from the
immediately preceding event are appended to that event's own activity's
sample set, and the first event of each trace contributes to none.  In
particular, on Scenario 1's two-trace log, activity `y` gets `count = 2`,
`durations = [60, 120]`, and mean `90` seconds. -/
theorem activity_timing_gap_semantics :
    (∀ (log : List (List Event)) (a : String), durationsOf log a = specDurations log a)
    ∧ durationsOf scenario1Log "y" = [60, 120]
    ∧ ((activity_counts scenario1Log).lookup "y").getD 0 = 2
    ∧ ((durationsOf scenario1Log "y").map fun d => (d : ℚ)).sum
        / ((durationsOf scenario1Log "y").length : ℚ) = 90 := by
  have hy : durationsOf scenario1Log "y" = [60, 120] := by decide
  refine ⟨durationsOf_eq_specDurations, hy, by decide, ?_⟩
  rw [hy]
  norm_num

/-! ## Claim C10 -/

/-- Claim C10: Building the activity table never fails on a missing key: every
activity label returned by the frequency count has an entry in the
`activity_timing` dictionary, so `activity_timing[activity]` is defined for
each key of `activity_counts`. -/
theorem activity_timing_lookup_total :
    ∀ (log : List (List Event)) (a : String),
      a ∈ (activity_counts log).map (·.1) →
      ((activity_timing log).lookup a).isSome = true := by
  intro log a ha
  have ha' : a ∈ allLabels log := by
    have hd : a ∈ (allLabels log).dedup := by
      unfold activity_counts at ha
      simpa [List.map_map] using ha
    exact List.mem_dedup.mp hd
  exact (foldl_timing_lookup_isSome log [] a).mpr (Or.inr ha')

/-- Witness for C10 at Scenario 1's log and activity `y`. -/
theorem activity_timing_lookup_total_witness :
    ((activity_timing scenario1Log).lookup "y").isSome = true :=
  activity_timing_lookup_total scenario1Log "y" (by decide)

/-! ## Claim C3 -/

/-- Claim C3 counterexample: On the empty EventLog the dashboard's average
case duration is rendered as the numeric value `0` (`round(0/3600, 2)`
hours), not as the no-data sentinel — the claim that all three summary
statistics report a sentinel and none reports 0 is false. -/
theorem case_duration_avg_zero_counterexample :
    avg_case_metric [] = Metric.value 0 ∧ avg_case_metric [] ≠ Metric.noData := by
  have h0 : round2 (avg_duration [] / 3600) = 0 := by
    norm_num [avg_duration, get_all_case_durations, round2, pyRound, Int.fract]
  exact ⟨by rw [avg_case_metric, h0], by simp [avg_case_metric]⟩

/-- Claim C3 amended: On the empty EventLog the min and max case duration
metrics report the "N/A" no-data sentinel (distinguishable from a numeric
zero) and do not raise; the average, however, is rendered as the numeric
value `0`. -/
theorem case_duration_empty_metrics :
    min_case_metric [] = Metric.noData
    ∧ max_case_metric [] = Metric.noData
    ∧ avg_case_metric [] = Metric.value 0
    ∧ Metric.noData ≠ Metric.value 0 := by
  have h0 : round2 (avg_duration [] / 3600) = 0 := by
    norm_num [avg_duration, get_all_case_durations, round2, pyRound, Int.fract]
  refine ⟨?_, ?_, by rw [avg_case_metric, h0], by simp⟩
  · simp [min_case_metric, get_all_case_durations]
  · simp [max_case_metric, get_all_case_durations]

/-! ## Claim C8 -/

theorem sum_map_mul_right {α : Type} (l : List α) (g : α → ℚ) (c : ℚ) :
    (l.map fun a => g a * c).sum = (l.map g).sum * c := by
  induction l with
  | nil => simp
  | cons a t ih => simp [ih]; ring

/-- Claim C8: For every EventLog: each activity row's count is the number of
events bearing that label across the whole log; its percentage is
`count / total-event-count × 100` rounded to 2 decimals; and when the log has
any event at all, the percentages sum to 100 within rounding tolerance
(at most 1/200 per activity). -/
theorem activity_count_percentage :
    ∀ log : List (List Event),
      ((activity_data log).map fun r => (r.activity, r.count))
          = (allLabels log).dedup.map (fun a => (a, (allLabels log).count a))
      ∧ ((activity_data log).map fun r => r.percentage)
          = (allLabels log).dedup.map (fun a =>
              round2 (((allLabels log).count a : ℚ) / ((allLabels log).length : ℚ) * 100))
      ∧ (allLabels log ≠ [] →
          |((activity_data log).map fun r => r.percentage).sum - 100|
            ≤ ((activity_data log).length : ℚ) * (1/200)) := by
  intro log
  have h1 : ((activity_data log).map fun r => (r.activity, r.count))
      = (allLabels log).dedup.map (fun a => (a, (allLabels log).count a)) := by
    simp only [activity_data, activity_counts, List.map_map]
    rfl
  have h2 : ((activity_data log).map fun r => r.percentage)
      = (allLabels log).dedup.map (fun a =>
          round2 (((allLabels log).count a : ℚ) / ((allLabels log).length : ℚ) * 100)) := by
    simp only [activity_data, activity_counts, List.map_map, counts_total_eq_length]
    rfl
  refine ⟨h1, h2, fun hne => ?_⟩
  rw [h2]
  have hlen : ((activity_data log).length : ℚ) = ((allLabels log).dedup.length : ℚ) := by
    simp [activity_data, activity_counts]
  rw [hlen]
  have hT : ((allLabels log).length : ℚ) ≠ 0 := by
    simpa using fun h => hne (List.length_eq_zero.mp h)
  have hfact : ((allLabels log).dedup.map fun a =>
        (((allLabels log).count a : ℚ) / ((allLabels log).length : ℚ) * 100))
      = (allLabels log).dedup.map fun a =>
          ((allLabels log).count a : ℚ) * (100 / ((allLabels log).length : ℚ)) := by
    refine List.map_congr_left fun a _ => ?_
    ring
  have hcast : ((allLabels log).dedup.map fun a => ((allLabels log).count a : ℚ)).sum
      = (((allLabels log).dedup.map fun a => (allLabels log).count a).sum : ℚ) := by
    rw [Nat.cast_list_sum, List.map_map]
    rfl
  have hsum : ((allLabels log).dedup.map fun a =>
      (((allLabels log).count a : ℚ) / ((allLabels log).length : ℚ) * 100)).sum = 100 := by
    rw [hfact, sum_map_mul_right, hcast,
      sum_counts_eq_length _ _ (List.nodup_dedup _) (fun x hx => List.mem_dedup.mpr hx)]
    field_simp
  have hbound := abs_list_sum_sub_le (allLabels log).dedup
    (fun a => round2 (((allLabels log).count a : ℚ) / ((allLabels log).length : ℚ) * 100))
    (fun a => ((allLabels log).count a : ℚ) / ((allLabels log).length : ℚ) * 100)
    (1/200) (fun a _ => round2_err _)
  rw [hsum] at hbound
  exact hbound

/-- Witness for C8's tolerance bound at Scenario 1's (nonempty) log. -/
theorem activity_count_percentage_witness :
    |((activity_data scenario1Log).map fun r => r.percentage).sum - 100|
      ≤ ((activity_data scenario1Log).length : ℚ) * (1/200) :=
  (activity_count_percentage scenario1Log).2.2 (by decide)

/-! ## Claim C9 -/

/-- Claim C9 counterexample: On `tieLog` both activities occur once, yet the
presentation table lists `"b"` before `"a"` — equal-count rows are *not*
ordered ascending by activity label. -/
theorem activity_table_tie_counterexample :
    ((activity_df tieLog).map fun r => r.activity) = ["b", "a"]
    ∧ ((activity_df tieLog).map fun r => r.count) = [1, 1] := by
  exact ⟨by decide, by decide⟩

/-- Claim C9 amended: The activity table is sorted non-increasing by count,
and rows with equal count appear in the reverse of their construction order
(pandas' descending sort reverses an ascending argsort), i.e. in reverse of
the `activity_counts` key order — not ascending by label. -/
theorem activity_table_ordering :
    ∀ log : List (List Event),
      (activity_df log).Sorted (fun x y => y.count ≤ x.count)
      ∧ ∀ c : ℕ, (activity_df log).filter (fun r => decide (r.count = c))
          = ((activity_data log).filter fun r => decide (r.count = c)).reverse := by
  intro log
  exact ⟨pandasSortDesc_sorted _ _, fun c => pandasSortDesc_filter_ties _ _ c⟩

/-! ## Claim C4 -/

theorem filter_hasTimestamp (t : List Event) : t.filter hasTimestamp = t := by
  induction t with
  | nil => rfl
  | cons e es ih => simp [List.filter_cons, hasTimestamp, ih]

theorem variant_durations_eq_filter_map (traces : List (List Event)) :
    variant_durations traces
      = (traces.filter fun t => 2 ≤ t.length).map fun t => ((spanSeconds t : ℤ) : ℚ) := by
  unfold variant_durations
  simp only [filter_hasTimestamp]
  induction traces with
  | nil => rfl
  | cons t ts ih =>
    rw [List.filterMap_cons]
    by_cases h : 1 < t.length
    · have h2 : decide (2 ≤ t.length) = true := by simpa using h
      rw [if_pos h]
      simp [List.filter_cons, h2, ih]
    · have h2 : decide (2 ≤ t.length) = false := by simp; omega
      rw [if_neg h]
      simp [List.filter_cons, h2, ih]

theorem mkVariantRecord_avg (vt : List String × List (List Event)) :
    (mkVariantRecord vt).avgSeconds = spec_variant_avg vt.2 := by
  show (let ds := variant_durations vt.2;
        if ds = [] then (0 : ℚ) else ds.sum / (ds.length : ℚ)) = _
  rw [show (let ds := variant_durations vt.2;
        if ds = [] then (0 : ℚ) else ds.sum / (ds.length : ℚ))
      = if variant_durations vt.2 = [] then (0 : ℚ)
        else (variant_durations vt.2).sum / ((variant_durations vt.2).length : ℚ) from rfl]
  rw [variant_durations_eq_filter_map]
  unfold spec_variant_avg
  by_cases hq : (vt.2.filter fun t => 2 ≤ t.length) = []
  · simp [hq]
  · simp [hq, List.map_eq_nil_iff]

/-- Claim C4: For every variant, `avg_duration` is the arithmetic mean, over
exactly the contributing traces with at least 2 (timestamp-carrying) events,
of `last event timestamp − first event timestamp` in seconds, and `0` when no
contributing trace qualifies; on Scenario 2's single trace the variant key is
`x → x → y` with `count = 1` and duration `20` seconds. -/
theorem variant_avg_duration :
    (∀ (log : List (List Event)) (v : List String) (traces : List (List Event)),
        (v, traces) ∈ variants_as_tuples log →
          mkVariantRecord (v, traces) ∈ variant_stats log
          ∧ (mkVariantRecord (v, traces)).count = traces.length
          ∧ (mkVariantRecord (v, traces)).avgSeconds = spec_variant_avg traces)
    ∧ ((variant_stats scenario2Log).map fun r => r.variantStr) = ["x → x → y"]
    ∧ ((variant_stats scenario2Log).map fun r => r.count) = [1]
    ∧ ((variant_stats scenario2Log).map fun r => r.avgSeconds) = [20] := by
  refine ⟨fun log v traces hmem =>
    ⟨List.mem_map_of_mem _ hmem, rfl, mkVariantRecord_avg (v, traces)⟩,
    by decide, by decide, ?_⟩
  have hv : variants_as_tuples scenario2Log = [(["x", "x", "y"], scenario2Log)] := by
    decide
  have hd : variant_durations scenario2Log = [(20 : ℚ)] := by
    norm_num [variant_durations, scenario2Log, hasTimestamp, spanSeconds,
      List.filterMap_cons]
  simp [variant_stats, hv, mkVariantRecord, hd]

/-- Witness for C4 at Scenario 2's log and its single variant. -/
theorem variant_avg_duration_witness :
    mkVariantRecord (["x", "x", "y"], scenario2Log) ∈ variant_stats scenario2Log
    ∧ (mkVariantRecord (["x", "x", "y"], scenario2Log)).count = scenario2Log.length
    ∧ (mkVariantRecord (["x", "x", "y"], scenario2Log)).avgSeconds
        = spec_variant_avg scenario2Log :=
  variant_avg_duration.1 scenario2Log _ _ (by decide)

/-! ## Claim C5 -/

/-- Claim C5: The Bottleneck Ranker retains exactly the entries whose extracted
mean time is a numeric value strictly greater than 0 — non-numeric, zero and
negative entries are dropped without failing — so no output entry has mean
time ≤ 0; on Scenario 4's mapping only `(e,f)` survives, with mean 300 s. -/
theorem bottleneck_filter_positive :
    (∀ (m : List ((String × String) × TimeInfo)) (r : PerfRecord),
        r ∈ performance_data m → 0 < r.avgSeconds)
    ∧ (∀ m : List ((String × String) × TimeInfo),
        ((performance_data m).map fun r => (r.fromAct, r.toAct))
          = (m.filter fun kt => isPosNum (extractMean kt.2)).map fun kt => kt.1)
    ∧ ((performance_data scenario4Map).map fun r => (r.fromAct, r.toAct, r.avgSeconds))
        = [("e", "f", (300 : ℚ))] := by
  refine ⟨?_, ?_, ?_⟩
  · intro m r hr
    obtain ⟨kt, _, hkt⟩ := List.mem_filterMap.mp hr
    split at hkt
    · split_ifs at hkt with hq
      cases hkt
      exact hq
    · cases hkt
  · intro m
    induction m with
    | nil => rfl
    | cons kt m ih =>
      cases hext : extractMean kt.2 with
      | num q =>
        by_cases hq : 0 < q
        · have hpd : performance_data (kt :: m)
              = ⟨kt.1.1, kt.1.2, q, round2 (q / 3600)⟩ :: performance_data m := by
            simp [performance_data, List.filterMap_cons, hext, hq]
          have hfl : (kt :: m).filter (fun kt => isPosNum (extractMean kt.2))
              = kt :: m.filter fun kt => isPosNum (extractMean kt.2) := by
            simp [List.filter_cons, hext, isPosNum, hq]
          rw [hpd, hfl, List.map_cons, List.map_cons, ih]
        · have hpd : performance_data (kt :: m) = performance_data m := by
            simp [performance_data, List.filterMap_cons, hext, hq]
          have hfl : (kt :: m).filter (fun kt => isPosNum (extractMean kt.2))
              = m.filter fun kt => isPosNum (extractMean kt.2) := by
            simp [List.filter_cons, hext, isPosNum, hq]
          rw [hpd, hfl]
          exact ih
      | other =>
        have hpd : performance_data (kt :: m) = performance_data m := by
          simp [performance_data, List.filterMap_cons, hext]
        have hfl : (kt :: m).filter (fun kt => isPosNum (extractMean kt.2))
            = m.filter fun kt => isPosNum (extractMean kt.2) := by
          simp [List.filter_cons, hext, isPosNum]
        rw [hpd, hfl]
        exact ih
  · norm_num [performance_data, scenario4Map, List.filterMap_cons, extractMean]

/-- Witness for C5's positivity at Scenario 4's mapping and its sole
retained record. -/
theorem bottleneck_filter_positive_witness :
    (0 : ℚ) < (PerfRecord.mk "e" "f" 300 (round2 (300 / 3600))).avgSeconds :=
  bottleneck_filter_positive.1 scenario4Map _
    (by norm_num [performance_data, scenario4Map, List.filterMap_cons, extractMean])

/-! ## Claim C6 -/

/-- Claim C6 counterexample: On `tieMap` the ranked table is
`[(b,b,3599 s), (a,a,3601 s)]`: the two rows tie at 1.00 rounded hours, yet
`(b,b)` precedes `(a,a)` — not lexicographic order — and the raw mean times
3599 < 3601 appear in *increasing* order, so the table is not sorted
non-increasing by mean transition time either. -/
theorem bottleneck_sort_tie_counterexample :
    ((perf_df tieMap).map fun r => (r.fromAct, r.toAct, r.avgSeconds))
      = [("b", "b", (3599 : ℚ)), ("a", "a", (3601 : ℚ))]
    ∧ ((perf_df tieMap).map fun r => r.avgHours) = [1, 1]
    ∧ (3599 : ℚ) < 3601 := by
  have h1 : round2 (3601 / 3600) = 1 := by norm_num [round2, pyRound, Int.fract]
  have h2 : round2 (3599 / 3600) = 1 := by norm_num [round2, pyRound, Int.fract]
  have hpd : performance_data tieMap
      = [⟨"a", "a", 3601, round2 (3601 / 3600)⟩,
         ⟨"b", "b", 3599, round2 (3599 / 3600)⟩] := by
    norm_num [performance_data, tieMap, List.filterMap_cons, extractMean]
  have hsorted : perf_df tieMap
      = [⟨"b", "b", 3599, round2 (3599 / 3600)⟩,
         ⟨"a", "a", 3601, round2 (3601 / 3600)⟩] := by
    rw [perf_df, pandasSortDesc, hpd]
    rw [show List.insertionSort (fun x y : PerfRecord => x.avgHours ≤ y.avgHours)
          [⟨"a", "a", 3601, round2 (3601 / 3600)⟩, ⟨"b", "b", 3599, round2 (3599 / 3600)⟩]
        = [⟨"a", "a", 3601, round2 (3601 / 3600)⟩, ⟨"b", "b", 3599, round2 (3599 / 3600)⟩]
      from by
        simp [List.insertionSort, List.orderedInsert, h1, h2]]
    rfl
  rw [hsorted]
  norm_num [h1, h2]

/-- Claim C6 amended: The Bottleneck Ranker's table is sorted non-increasing
by its sort column — the rounded mean hours — with entries of equal rounded
mean hours appearing in the *reverse* of their input-mapping order (pandas'
descending sort reverses a stable ascending argsort), and the headline
bottlenecks are the top 5 rows of the ranked table. -/
theorem bottleneck_sort_ranking :
    (∀ m : List ((String × String) × TimeInfo),
        (perf_df m).Sorted fun x y => y.avgHours ≤ x.avgHours)
    ∧ (∀ (m : List ((String × String) × TimeInfo)) (c : ℚ),
        (perf_df m).filter (fun r => decide (r.avgHours = c))
          = ((performance_data m).filter fun r => decide (r.avgHours = c)).reverse)
    ∧ ∀ m : List ((String × String) × TimeInfo),
        bottleneck_headline m = (perf_df m).take 5 :=
  ⟨fun _ => pandasSortDesc_sorted _ _, fun _ c => pandasSortDesc_filter_ties _ _ c,
   fun _ => rfl⟩

/-! ## Claim C7 -/

/-- Claim C7 counterexample: `sepLog`'s only variant key is
`["a → b", "c"]`, whose rendered string `"a → b → c"` re-parses as
`["a", "b", "c"]`; the end-to-end variant filter therefore returns the empty
sub-log even though the log's (only) trace matches the key exactly. -/
theorem variant_filter_separator_counterexample :
    (["a → b", "c"] ∈ sepLog.map variantKey)
    ∧ select_variant_filtered sepLog ["a → b", "c"] = []
    ∧ sepLog.filter (fun t => variantKey t == ["a → b", "c"]) = sepLog
    ∧ sepLog ≠ [] :=
  ⟨by decide, by decide, by decide, by decide⟩

/-- Claim C7 amended: For every variant key that survives the render/parse
round trip (joining with `' → '` and splitting again returns the key — in
particular any key whose labels do not contain the separator), the variant
filter returns exactly the traces whose activity sequence equals the key. -/
theorem variant_filter_roundtrip_exact :
    ∀ (log : List (List Event)) (v : List String),
      pySplit " → " (pyJoin " → " v) = v →
      select_variant_filtered log v = log.filter fun t => variantKey t == v := by
  intro log v h
  unfold select_variant_filtered filtered_log filter_variants
  rw [h]
  refine List.filter_congr fun t _ => ?_
  by_cases he : variantKey t = v
  · simp [List.contains, he]
  · simp [List.contains, he]

/-- Witness for C7 (amended) at Scenario 1's log and the round-trippable key
`["x", "y"]`. -/
theorem variant_filter_roundtrip_exact_witness :
    select_variant_filtered scenario1Log ["x", "y"]
      = scenario1Log.filter fun t => variantKey t == ["x", "y"] :=
  variant_filter_roundtrip_exact scenario1Log ["x", "y"] (by decide)
